import Mathlib

/-!
Verification of the validated serialization adapter in `src/protobuf/mod.rs`.

The module defines an object-safe `Protobuf` trait composing an external wire
codec (prost `Message`) with a domain-validation step.  We embed the trait
generically: a `WireCodec R` packages the external codec boundary for a raw
type `R`, and a `ProtobufInst D R` packages the two erased conversion
capabilities of a domain type `D` paired with `R`.  The trait methods of
`mod.rs` become functions over those two structures.  The module documentation
example (`MyRawType` / `MyDomainType` with the rule that field `a` must be
greater than 0) is embedded as an executable instance, with a concrete
Protocol Buffers style varint codec, and used as the witness instance.
-/

/-- Byte sequences are modelled as lists of naturals (each below 256 in
practice; the encoders below only emit such values). -/
abbrev Bytes := List Nat

/-- Base-128 varint encoder with explicit fuel; the low 7 bits of every
nonterminal byte carry payload and the high bit marks continuation. -/
def varintAux : Nat → Nat → Bytes
  | 0, _ => []
  | fuel + 1, n => if n < 128 then [n] else (n % 128 + 128) :: varintAux fuel (n / 128)

/-- Base-128 varint encoding of a natural number (fuel `n + 1` always
suffices because the argument strictly decreases at each step). -/
def varint (n : Nat) : Bytes := varintAux (n + 1) n

/-- Reads one base-128 varint from the front of a buffer, returning the value
and the remaining bytes; fails on an empty or truncated buffer. -/
def readVarint : Bytes → Except String (Nat × Bytes)
  | [] => .error "buffer underflow"
  | b :: bs =>
    if b < 128 then .ok (b, bs)
    else
      match readVarint bs with
      | .error e => .error e
      | .ok (n, rest) => .ok (n * 128 + (b - 128), rest)

/-- ASCII code of the lowercase hexadecimal digit for a nibble value. -/
def hexDigit (n : Nat) : Nat := if n < 10 then 48 + n else 87 + n

/-- ASCII bytes of the lowercase hexadecimal rendering of a byte sequence,
high nibble first; models the external hex renderer boundary
(`subtle_encoding::hex::encode`). -/
def hexBytes : Bytes → Bytes
  | [] => []
  | b :: bs => hexDigit (b / 16 % 16) :: hexDigit (b % 16) :: hexBytes bs

/-- The sixteen ASCII codes of the lowercase hexadecimal alphabet. -/
def hexAlphabet : Bytes :=
  [48, 49, 50, 51, 52, 53, 54, 55, 56, 57, 97, 98, 99, 100, 101, 102]

/-- UTF-8 validation step of `String::from_utf8`, restricted to the ASCII
plane (the only inputs it receives here are ASCII hex digits): succeeds
exactly when every byte is below 128. -/
def fromUtf8Ascii (bs : Bytes) : Option String :=
  if bs.all (fun b => b < 128) then some (String.mk (bs.map Char.ofNat)) else none

/-- Modelled from the spec: `src/protobuf/error.rs` is not under `src/`.
Section 7 of the spec gives the flat taxonomy: `DecodeMessage\x7bcause\x7d`,
`EncodeMessage\x7bcause\x7d`, and `TryFrom\x7braw_type_name, domain_type_name,
cause\x7d`; causes are carried as displayable text. -/
inductive Error where
  | decodeMessage (cause : String)
  | encodeMessage (cause : String)
  | tryFromE (rawType : String) (domainType : String) (cause : String)
deriving Repr, DecidableEq

/-- The external wire codec boundary consumed by the trait (prost `Message`
for the raw type `R`): byte production, byte parsing, and the computed
encoded length, all treated as a black box. -/
structure WireCodec (R : Type) where
  enc : R → Bytes
  dec : Bytes → Except String R
  encodedLen : R → Nat

/-- Length-delimited encoding at the codec boundary: the message bytes
prefixed with their varint-encoded byte length. -/
def WireCodec.encLD {R : Type} (c : WireCodec R) (r : R) : Bytes :=
  varint (c.enc r).length ++ c.enc r

/-- Length-delimited decoding at the codec boundary: read the varint length
prefix, fail if fewer bytes remain than announced, and otherwise decode
exactly that many bytes. -/
def WireCodec.decLD {R : Type} (c : WireCodec R) (bs : Bytes) : Except String R :=
  match readVarint bs with
  | .error e => .error e
  | .ok (len, rest) =>
    if len ≤ rest.length then c.dec (rest.take len) else .error "buffer underflow"

/-- An output buffer at the codec boundary (prost `BufMut`): the bytes
written so far plus the remaining capacity, where `extraCap = none` models a
growable `Vec\x3cu8\x3e` whose capacity is unbounded. -/
structure EncBuf where
  bytes : Bytes
  extraCap : Option Nat
deriving Repr, DecidableEq

/-- Buffered encode at the codec boundary (prost `Message::encode`): fails
exactly when the required encoded length exceeds the remaining capacity of a
bounded buffer, and otherwise appends the encoding. -/
def prostEncode {R : Type} (c : WireCodec R) (r : R) (buf : EncBuf) : Except String EncBuf :=
  match buf.extraCap with
  | none => .ok ⟨buf.bytes ++ c.enc r, none⟩
  | some k =>
    if k < c.encodedLen r then .error "insufficient buffer capacity"
    else .ok ⟨buf.bytes ++ c.enc r, some (k - (c.enc r).length)⟩

/-- Buffered length-delimited encode at the codec boundary
(prost `Message::encode_length_delimited`). -/
def prostEncodeLD {R : Type} (c : WireCodec R) (r : R) (buf : EncBuf) : Except String EncBuf :=
  match buf.extraCap with
  | none => .ok ⟨buf.bytes ++ c.encLD r, none⟩
  | some k =>
    if k < (varint (c.encodedLen r)).length + c.encodedLen r then
      .error "insufficient buffer capacity"
    else .ok ⟨buf.bytes ++ c.encLD r, some (k - (c.encLD r).length)⟩

/-- Modelled from the spec: `src/protobuf/erased.rs` is not under `src/`.
Section 4.2 describes the two object-safe capabilities a domain type `D`
paired with raw type `R` provides: the cloning conversion `D → R` (clone the
domain value, then apply the total conversion; cloning is the identity on
values, so it coincides with the total conversion) and the fallible
conversion `R → D` whose error is rendered as displayable text.  The type
names are carried for error construction. -/
structure ProtobufInst (D R : Type) where
  cloneInto : D → R
  tryFromRaw : R → Except String D
  rawType : String
  domainType : String

/-- `Protobuf::encode`: convert to the raw counterpart and delegate to the
codec buffered encode into the caller-supplied `Vec\x3cu8\x3e`, wrapping any
codec failure as an encode-message error. -/
def Protobuf.encode {D R : Type} (c : WireCodec R) (p : ProtobufInst D R) (d : D)
    (buf : Bytes) : Except Error Bytes :=
  match prostEncode c (p.cloneInto d) ⟨buf, none⟩ with
  | .error e => .error (Error.encodeMessage e)
  | .ok out => .ok out.bytes

/-- `Protobuf::encode_length_delimited`: as `encode`, with the codec
length-delimited framing. -/
def Protobuf.encode_length_delimited {D R : Type} (c : WireCodec R) (p : ProtobufInst D R)
    (d : D) (buf : Bytes) : Except Error Bytes :=
  match prostEncodeLD c (p.cloneInto d) ⟨buf, none⟩ with
  | .error e => .error (Error.encodeMessage e)
  | .ok out => .ok out.bytes

/-- `Protobuf::decode`: delegate the entire buffer to the codec decode,
wrapping codec failure as a decode-message error, then apply the fallible
raw-to-domain conversion, wrapping validation failure as a try-from error
naming both types. -/
def Protobuf.decode {D R : Type} (c : WireCodec R) (p : ProtobufInst D R)
    (bs : Bytes) : Except Error D :=
  match c.dec bs with
  | .error e => .error (Error.decodeMessage e)
  | .ok raw =>
    match p.tryFromRaw raw with
    | .error e => .error (Error.tryFromE p.rawType p.domainType e)
    | .ok d => .ok d

/-- `Protobuf::decode_length_delimited`: as `decode`, with the codec
length-delimited framing. -/
def Protobuf.decode_length_delimited {D R : Type} (c : WireCodec R) (p : ProtobufInst D R)
    (bs : Bytes) : Except Error D :=
  match c.decLD bs with
  | .error e => .error (Error.decodeMessage e)
  | .ok raw =>
    match p.tryFromRaw raw with
    | .error e => .error (Error.tryFromE p.rawType p.domainType e)
    | .ok d => .ok d

/-- `Protobuf::encoded_len`: the codec computed length of the raw
counterpart, without a length delimiter. -/
def Protobuf.encoded_len {D R : Type} (c : WireCodec R) (p : ProtobufInst D R) (d : D) : Nat :=
  c.encodedLen (p.cloneInto d)

/-- `Protobuf::encode_vec`: the codec encoding of the raw counterpart into a
fresh vector (prost `encode_to_vec`). -/
def Protobuf.encode_vec {D R : Type} (c : WireCodec R) (p : ProtobufInst D R) (d : D) : Bytes :=
  c.enc (p.cloneInto d)

/-- `Protobuf::decode_vec`: delegates to `decode`. -/
def Protobuf.decode_vec {D R : Type} (c : WireCodec R) (p : ProtobufInst D R)
    (v : Bytes) : Except Error D :=
  Protobuf.decode c p v

/-- `Protobuf::encode_length_delimited_vec`: the codec length-delimited
encoding of the raw counterpart into a fresh vector. -/
def Protobuf.encode_length_delimited_vec {D R : Type} (c : WireCodec R)
    (p : ProtobufInst D R) (d : D) : Bytes :=
  c.encLD (p.cloneInto d)

/-- `Protobuf::decode_length_delimited_vec`: delegates to
`decode_length_delimited`. -/
def Protobuf.decode_length_delimited_vec {D R : Type} (c : WireCodec R)
    (p : ProtobufInst D R) (v : Bytes) : Except Error D :=
  Protobuf.decode_length_delimited c p v

/-- `Protobuf::encode_to_hex_string`: hex-render the bytes of `encode_vec`
and validate the result as UTF-8.  The source unwraps the validation with
`expect`; the model keeps the `Option` so that the impossibility of the
failure is a provable statement rather than an assumption. -/
def Protobuf.encode_to_hex_string {D R : Type} (c : WireCodec R) (p : ProtobufInst D R)
    (d : D) : Option String :=
  fromUtf8Ascii (hexBytes (Protobuf.encode_vec c p d))

/-- `MyRawType` from the module documentation example in `mod.rs`: a prost
message with `a : uint64` at tag 1 and `b : string` at tag 2; the string is
modelled by its UTF-8 bytes. -/
structure MyRawType where
  a : Nat
  b : Bytes
deriving Repr, DecidableEq

/-- `MyDomainType` from the module documentation example in `mod.rs`. -/
structure MyDomainType where
  a : Nat
  b : Bytes
deriving Repr, DecidableEq

/-- `MyDomainType::new` from the module documentation example: basic
validation requiring `a` to be at least 1. -/
def MyDomainType.new (a : Nat) (b : Bytes) : Except String MyDomainType :=
  if a < 1 then .error "a must be greater than 0" else .ok ⟨a, b⟩

/-- Wire encoding of `MyRawType` in the Protocol Buffers format produced by
prost: fields with default values are skipped; field 1 is key byte 8 then a
varint, field 2 is key byte 18, a varint byte length, then the bytes. -/
def encodeMyRaw (r : MyRawType) : Bytes :=
  (if r.a = 0 then [] else 8 :: varint r.a) ++
    (if r.b = [] then [] else 18 :: (varint r.b.length ++ r.b))

/-- prost computed encoded length of `MyRawType`: one key byte plus the
varint length for field 1, one key byte plus the length prefix plus the
payload for field 2, skipping default values. -/
def encodedLenMyRaw (r : MyRawType) : Nat :=
  (if r.a = 0 then 0 else 1 + (varint r.a).length) +
    (if r.b = [] then 0 else 1 + (varint r.b.length).length + r.b.length)

/-- Field-decoding loop for `MyRawType` with fuel: read a key varint, then
the field payload, with later occurrences of a field replacing earlier ones;
fails on truncated input or an unexpected key. -/
def decodeMyRawLoop : Nat → Bytes → MyRawType → Except String MyRawType
  | _, [], acc => .ok acc
  | 0, _ :: _, _ => .error "recursion limit reached"
  | fuel + 1, bs, acc =>
    match readVarint bs with
    | .error e => .error e
    | .ok (key, rest) =>
      if key = 8 then
        match readVarint rest with
        | .error e => .error e
        | .ok (v, rest2) => decodeMyRawLoop fuel rest2 ⟨v, acc.b⟩
      else if key = 18 then
        match readVarint rest with
        | .error e => .error e
        | .ok (len, rest2) =>
          if len ≤ rest2.length then
            decodeMyRawLoop fuel (rest2.drop len) ⟨acc.a, rest2.take len⟩
          else .error "buffer underflow"
      else .error "invalid key"

/-- Wire decoding of `MyRawType`: run the field loop on the whole buffer
starting from the default message (each iteration consumes at least one
byte, so fuel one beyond the buffer length suffices). -/
def decodeMyRaw (bs : Bytes) : Except String MyRawType :=
  decodeMyRawLoop (bs.length + 1) bs ⟨0, []⟩

/-- The wire codec instance for `MyRawType`. -/
def myCodec : WireCodec MyRawType where
  enc := encodeMyRaw
  dec := decodeMyRaw
  encodedLen := encodedLenMyRaw

/-- The `Protobuf` instance of the documentation example: `MyDomainType`
paired with `MyRawType`, with the field-for-field total conversion and the
validating fallible conversion. -/
def myProto : ProtobufInst MyDomainType MyRawType where
  cloneInto := fun d => ⟨d.a, d.b⟩
  tryFromRaw := fun r => MyDomainType.new r.a r.b
  rawType := "MyRawType"
  domainType := "MyDomainType"

/-- Reading a varint written by `varintAux` with sufficient fuel returns the
encoded value and leaves the rest of the buffer untouched. -/
theorem readVarint_varintAux (fuel : Nat) :
    ∀ n rest, n < fuel → readVarint (varintAux fuel n ++ rest) = Except.ok (n, rest) := by
  induction fuel with
  | zero => intro n rest h; omega
  | succ f ih =>
    intro n rest h
    by_cases hn : n < 128
    · simp [varintAux, hn, readVarint]
    · have hdiv : n / 128 < n := Nat.div_lt_self (by omega) (by omega)
      have : readVarint (varintAux f (n / 128) ++ rest) = Except.ok (n / 128, rest) :=
        ih (n / 128) rest (by omega)
      simp only [varintAux, hn, if_false, List.cons_append, readVarint]
      have hbig : ¬ (n % 128 + 128 < 128) := by omega
      simp only [hbig, if_false, this]
      have heq : n / 128 * 128 + (n % 128 + 128 - 128) = n := by omega
      simp only [Except.ok.injEq, Prod.mk.injEq, and_true]
      omega

/-- Reading back a varint encoding returns the encoded value and the rest of
the buffer. -/
theorem readVarint_varint (n : Nat) (rest : Bytes) :
    readVarint (varint n ++ rest) = Except.ok (n, rest) :=
  readVarint_varintAux (n + 1) n rest (Nat.lt_succ_self n)

/-- Decidable equality on `Except`, needed to evaluate the codec model on
concrete inputs. -/
instance {ε α : Type} [DecidableEq ε] [DecidableEq α] : DecidableEq (Except ε α) := fun x y =>
  match x, y with
  | .ok a, .ok b => if h : a = b then .isTrue (by rw [h]) else .isFalse (by simp [h])
  | .error a, .error b => if h : a = b then .isTrue (by rw [h]) else .isFalse (by simp [h])
  | .ok _, .error _ => .isFalse (by simp)
  | .error _, .ok _ => .isFalse (by simp)

/-- The hexadecimal digit of any nibble value is an ASCII code of the
lowercase hexadecimal alphabet. -/
theorem hexDigit_mem_alphabet : ∀ n, n < 16 → hexAlphabet.contains (hexDigit n) = true := by
  decide

/-- The hexadecimal digit of any nibble value is an ASCII code below 128. -/
theorem hexDigit_lt_128 : ∀ n, n < 16 → hexDigit n < 128 := by
  decide

/-- Every byte of a hexadecimal rendering belongs to the lowercase
hexadecimal alphabet. -/
theorem hexBytes_all_mem (bs : Bytes) :
    (hexBytes bs).all (fun b => hexAlphabet.contains b) = true := by
  induction bs with
  | nil => rfl
  | cons b bs ih =>
    simp only [hexBytes, List.all_cons, ih, Bool.and_true]
    rw [hexDigit_mem_alphabet (b / 16 % 16) (Nat.mod_lt _ (by omega)),
      hexDigit_mem_alphabet (b % 16) (Nat.mod_lt _ (by omega))]
    rfl

/-- Every byte of a hexadecimal rendering is below 128. -/
theorem hexBytes_all_lt_128 (bs : Bytes) :
    (hexBytes bs).all (fun b => b < 128) = true := by
  induction bs with
  | nil => rfl
  | cons b bs ih =>
    simp only [hexBytes, List.all_cons, ih, Bool.and_true, Bool.and_eq_true, decide_eq_true_eq]
    exact ⟨hexDigit_lt_128 (b / 16 % 16) (Nat.mod_lt _ (by omega)),
      hexDigit_lt_128 (b % 16) (Nat.mod_lt _ (by omega))⟩

/-- A hexadecimal rendering has exactly two bytes per input byte. -/
theorem hexBytes_length (bs : Bytes) : (hexBytes bs).length = 2 * bs.length := by
  induction bs with
  | nil => rfl
  | cons b bs ih => simp [hexBytes, ih]; omega

/-- The prost computed length of `MyRawType` agrees with the length of the
bytes its encoder produces. -/
theorem encodedLenMyRaw_spec (r : MyRawType) :
    encodedLenMyRaw r = (encodeMyRaw r).length := by
  unfold encodedLenMyRaw encodeMyRaw
  by_cases ha : r.a = 0 <;> by_cases hb : r.b = [] <;>
    simp [ha, hb, List.length_append] <;> omega

/-- Claim C1: for every domain value satisfying the invariants of D, decoding
the bytes produced by encoding it into a fresh buffer succeeds and returns an
equal domain value, under the hypotheses that the external codec round-trips
on the raw counterpart and that the two conversions are mutually consistent
at that value. -/
theorem protobuf_roundtrip {D R : Type} (c : WireCodec R) (p : ProtobufInst D R) (d : D)
    (hcodec : c.dec (c.enc (p.cloneInto d)) = Except.ok (p.cloneInto d))
    (hconv : p.tryFromRaw (p.cloneInto d) = Except.ok d) :
    ∃ bts, Protobuf.encode c p d [] = Except.ok bts ∧
      Protobuf.decode c p bts = Except.ok d := by
  refine ⟨c.enc (p.cloneInto d), ?_, ?_⟩
  · simp [Protobuf.encode, prostEncode]
  · simp [Protobuf.decode, hcodec, hconv]

/-- Witness for C1 at the concrete scenario of the spec: the documentation
example pairing, with the domain value whose field a is 5 and whose field b
is the one-byte string x. -/
theorem protobuf_roundtrip_witness :
    ∃ bts, Protobuf.encode myCodec myProto ⟨5, [120]⟩ [] = Except.ok bts ∧
      Protobuf.decode myCodec myProto bts = Except.ok ⟨5, [120]⟩ :=
  protobuf_roundtrip myCodec myProto ⟨5, [120]⟩ (by decide) (by decide)

/-- Claim C2: decoding the codec encoding of a raw value that fails the
domain invariant check yields a try-from error carrying both type names and
the validation cause, given that the codec round-trips on that raw value. -/
theorem protobuf_decode_invalid_raw {D R : Type} (c : WireCodec R) (p : ProtobufInst D R)
    (r : R) (e : String)
    (hdec : c.dec (c.enc r) = Except.ok r)
    (hfail : p.tryFromRaw r = Except.error e) :
    Protobuf.decode c p (c.enc r) = Except.error (Error.tryFromE p.rawType p.domainType e) := by
  simp [Protobuf.decode, hdec, hfail]

/-- Witness for C2 at the concrete scenario of the spec: the raw value whose
field a is 0 fails validation, and decoding its codec encoding yields the
try-from error naming both types with the validation cause. -/
theorem protobuf_decode_invalid_raw_witness :
    Protobuf.decode myCodec myProto (myCodec.enc ⟨0, [120]⟩) =
      Except.error (Error.tryFromE "MyRawType" "MyDomainType" "a must be greater than 0") :=
  protobuf_decode_invalid_raw myCodec myProto ⟨0, [120]⟩ "a must be greater than 0"
    (by decide) (by decide)

/-- Claim C3: on a byte sequence the codec rejects, decode yields a
decode-message error wrapping the codec cause, and the result does not
depend on the conversion capabilities, so the fallible raw-to-domain
conversion is never applied. -/
theorem protobuf_decode_malformed {D R : Type} (c : WireCodec R)
    (p p2 : ProtobufInst D R) (bs : Bytes) (e : String)
    (h : c.dec bs = Except.error e) :
    Protobuf.decode c p bs = Except.error (Error.decodeMessage e) ∧
      Protobuf.decode c p2 bs = Protobuf.decode c p bs := by
  constructor
  · simp [Protobuf.decode, h]
  · simp [Protobuf.decode, h]

/-- A second conversion instance for the same pairing, with no validation at
all, used to show that decode failures do not depend on the conversions. -/
def anyProto : ProtobufInst MyDomainType MyRawType where
  cloneInto := fun d => ⟨d.a, d.b⟩
  tryFromRaw := fun r => .ok ⟨r.a, r.b⟩
  rawType := "MyRawType"
  domainType := "AnyDomain"

/-- Witness for C3: the truncated buffer holding only the key byte 8 fails
wire decoding with a buffer underflow, which surfaces as a decode-message
error under either conversion instance. -/
theorem protobuf_decode_malformed_witness :
    Protobuf.decode myCodec myProto [8] =
        Except.error (Error.decodeMessage "buffer underflow") ∧
      Protobuf.decode myCodec anyProto [8] = Protobuf.decode myCodec myProto [8] :=
  protobuf_decode_malformed myCodec myProto anyProto [8] "buffer underflow" (by decide)

/-- Claim C4: given the codec contract that the computed encoded length
agrees with the length of the produced bytes, the encoded length of a domain
value equals the length of its fresh-vector encoding, and a successful
buffered encode appends exactly that many bytes. -/
theorem protobuf_encoded_len_spec {D R : Type} (c : WireCodec R) (p : ProtobufInst D R)
    (d : D) (buf : Bytes)
    (hlen : c.encodedLen (p.cloneInto d) = (c.enc (p.cloneInto d)).length) :
    Protobuf.encoded_len c p d = (Protobuf.encode_vec c p d).length ∧
      ∃ out, Protobuf.encode c p d buf = Except.ok out ∧
        out.length = buf.length + Protobuf.encoded_len c p d := by
  refine ⟨hlen, buf ++ c.enc (p.cloneInto d), ?_, ?_⟩
  · simp [Protobuf.encode, prostEncode]
  · simp [Protobuf.encoded_len, hlen]

/-- Witness for C4 at the concrete scenario, with a nonempty prior buffer of
two bytes: the encoded length 5 equals the length of the produced bytes, and
the buffered encode grows the buffer by exactly 5. -/
theorem protobuf_encoded_len_spec_witness :
    Protobuf.encoded_len myCodec myProto ⟨5, [120]⟩ =
        (Protobuf.encode_vec myCodec myProto ⟨5, [120]⟩).length ∧
      ∃ out, Protobuf.encode myCodec myProto ⟨5, [120]⟩ [9, 9] = Except.ok out ∧
        out.length = [9, 9].length + Protobuf.encoded_len myCodec myProto ⟨5, [120]⟩ :=
  protobuf_encoded_len_spec myCodec myProto ⟨5, [120]⟩ [9, 9]
    (encodedLenMyRaw_spec ⟨5, [120]⟩)

/-- Claim C5: decode hands the entire input buffer to the codec: on a buffer
the codec accepts it succeeds, and on the same buffer extended with trailing
bytes the codec rejects, the failure propagates as a decode-message error
instead of the trailing bytes being ignored. -/
theorem protobuf_decode_whole_input {D R : Type} (c : WireCodec R) (p : ProtobufInst D R)
    (bs extra : Bytes) (d : D) (r : R) (e : String)
    (hok : c.dec bs = Except.ok r)
    (hconv : p.tryFromRaw r = Except.ok d)
    (htrail : c.dec (bs ++ extra) = Except.error e) :
    Protobuf.decode c p bs = Except.ok d ∧
      Protobuf.decode c p (bs ++ extra) = Except.error (Error.decodeMessage e) := by
  constructor
  · simp [Protobuf.decode, hok, hconv]
  · simp [Protobuf.decode, htrail]

/-- Witness for C5: the encoding of the concrete scenario value decodes
successfully, and the same bytes followed by a single trailing zero byte are
rejected by the wire codec as an invalid key, so decode fails. -/
theorem protobuf_decode_whole_input_witness :
    Protobuf.decode myCodec myProto [8, 5, 18, 1, 120] = Except.ok ⟨5, [120]⟩ ∧
      Protobuf.decode myCodec myProto ([8, 5, 18, 1, 120] ++ [0]) =
        Except.error (Error.decodeMessage "invalid key") :=
  protobuf_decode_whole_input myCodec myProto [8, 5, 18, 1, 120] [0] ⟨5, [120]⟩ ⟨5, [120]⟩
    "invalid key" (by decide) (by decide) (by decide)

/-- Claim C6: for every domain value satisfying the invariants of D, the
length-delimited decode of the length-delimited encoding into a fresh buffer
succeeds and returns an equal domain value, under the same codec round-trip
and conversion consistency hypotheses as the unframed round-trip. -/
theorem protobuf_roundtrip_length_delimited {D R : Type} (c : WireCodec R)
    (p : ProtobufInst D R) (d : D)
    (hcodec : c.dec (c.enc (p.cloneInto d)) = Except.ok (p.cloneInto d))
    (hconv : p.tryFromRaw (p.cloneInto d) = Except.ok d) :
    ∃ bts, Protobuf.encode_length_delimited c p d [] = Except.ok bts ∧
      Protobuf.decode_length_delimited c p bts = Except.ok d := by
  refine ⟨c.encLD (p.cloneInto d), ?_, ?_⟩
  · simp [Protobuf.encode_length_delimited, prostEncodeLD]
  · simp only [Protobuf.decode_length_delimited, WireCodec.decLD, WireCodec.encLD,
      readVarint_varint]
    simp [List.take_length, hcodec, hconv]

/-- Witness for C6 at the concrete scenario value. -/
theorem protobuf_roundtrip_length_delimited_witness :
    ∃ bts, Protobuf.encode_length_delimited myCodec myProto ⟨5, [120]⟩ [] = Except.ok bts ∧
      Protobuf.decode_length_delimited myCodec myProto bts = Except.ok ⟨5, [120]⟩ :=
  protobuf_roundtrip_length_delimited myCodec myProto ⟨5, [120]⟩ (by decide) (by decide)

/-- Claim C7: encoding to a hexadecimal string never fails (the UTF-8
validation the source unwraps with expect always succeeds), and the result
is exactly the rendering of the fresh-vector encoding where every character
comes from the lowercase hexadecimal alphabet, two characters per byte. -/
theorem protobuf_encode_to_hex_spec {D R : Type} (c : WireCodec R) (p : ProtobufInst D R)
    (d : D) :
    Protobuf.encode_to_hex_string c p d =
        some (String.mk ((hexBytes (Protobuf.encode_vec c p d)).map Char.ofNat)) ∧
      (hexBytes (Protobuf.encode_vec c p d)).all (fun b => hexAlphabet.contains b) = true ∧
      (hexBytes (Protobuf.encode_vec c p d)).length = 2 * (Protobuf.encode_vec c p d).length := by
  refine ⟨?_, hexBytes_all_mem _, hexBytes_length _⟩
  simp [Protobuf.encode_to_hex_string, fromUtf8Ascii, hexBytes_all_lt_128]

/-- Claim C8: the allocating convenience forms agree with the buffer-based
forms: encoding into a fresh empty buffer produces exactly the fresh-vector
encoding (framed and unframed), and the vector-sourced decodes return the
same result as the corresponding streaming decodes on every byte slice. -/
theorem protobuf_vec_forms_equiv {D R : Type} (c : WireCodec R) (p : ProtobufInst D R)
    (d : D) (v : Bytes) :
    Protobuf.encode c p d [] = Except.ok (Protobuf.encode_vec c p d) ∧
      Protobuf.encode_length_delimited c p d [] =
        Except.ok (Protobuf.encode_length_delimited_vec c p d) ∧
      Protobuf.decode_vec c p v = Protobuf.decode c p v ∧
      Protobuf.decode_length_delimited_vec c p v = Protobuf.decode_length_delimited c p v := by
  refine ⟨?_, ?_, rfl, rfl⟩
  · simp [Protobuf.encode, prostEncode, Protobuf.encode_vec]
  · simp [Protobuf.encode_length_delimited, prostEncodeLD, Protobuf.encode_length_delimited_vec]

/-- Claim C9: the buffered encodes are append-only: for every prior buffer
content, both framed and unframed encode succeed and return the prior bytes
unchanged as a prefix, followed by a suffix that does not depend on the
prior contents. -/
theorem protobuf_encode_append_only {D R : Type} (c : WireCodec R) (p : ProtobufInst D R)
    (d : D) (buf : Bytes) :
    Protobuf.encode c p d buf = Except.ok (buf ++ Protobuf.encode_vec c p d) ∧
      Protobuf.encode_length_delimited c p d buf =
        Except.ok (buf ++ Protobuf.encode_length_delimited_vec c p d) := by
  constructor
  · simp [Protobuf.encode, prostEncode, Protobuf.encode_vec]
  · simp [Protobuf.encode_length_delimited, prostEncodeLD, Protobuf.encode_length_delimited_vec]

/-- Claim C10: the error branch of the buffered encodes is unreachable when
the output buffer is a growable vector: both operations return a success for
every domain value and every prior buffer content, because the codec only
reports encode failure on insufficient capacity of a bounded buffer. -/
theorem protobuf_encode_infallible {D R : Type} (c : WireCodec R) (p : ProtobufInst D R)
    (d : D) (buf : Bytes) :
    (∃ out, Protobuf.encode c p d buf = Except.ok out) ∧
      ∃ out, Protobuf.encode_length_delimited c p d buf = Except.ok out := by
  constructor
  · exact ⟨buf ++ c.enc (p.cloneInto d), by simp [Protobuf.encode, prostEncode]⟩
  · exact ⟨buf ++ c.encLD (p.cloneInto d), by simp [Protobuf.encode_length_delimited, prostEncodeLD]⟩

/-- For contrast with claim C10: with a bounded output buffer whose remaining
capacity is below the required encoded length, the codec buffered encode
does report the capacity failure, so the error branch of the model is
genuinely present and only unreachable for growable vectors. -/
theorem prostEncode_bounded_capacity_fails :
    prostEncode myCodec ⟨5, [120]⟩ ⟨[], some 2⟩ =
      Except.error "insufficient buffer capacity" := by decide
